import Mathlib

/-!
# Terminal quiz game (`main.cpp`): loader and session runner

A shallow embedding of `load_questions`, `get_user_choice` and `main` from `main.cpp`,
followed by the theorems that settle the claims of the specification.

Modelling conventions.

* `int` is a 32-bit two's complement integer.  Values of type `int` are carried as `Int`;
  every narrowing conversion the program performs (`get<int>()`, `(int)q.choices.size()`)
  goes through `to_int`, which reduces modulo `2^32`.  The counters `total_attempts` and
  `score` are only ever incremented once per question and are kept as unbounded `Int`.
* The file `questions.json` is given by what `ifstream` and `file >> j` make of it:
  the file cannot be opened, its text does not parse, or it parses to a `Json` value.
* `json.hpp` (nlohmann::json) is a third-party header that the program includes; the
  operations the program calls (`is_array`, `contains`, `operator[]`, `get<T>()`) are
  modelled after that library on the `Json` value type below.
* Standard input is the finite list of characters that will ever arrive on `cin`.
  A read that finds the list exhausted never completes (the program blocks on the terminal
  or spins on end-of-file), which the model reports as `none`.
* `high_resolution_clock::now()` is an oracle `clock : Nat → ℚ` giving the successive
  readings in seconds; durations are exact rationals, rounding of `double` is not modelled.
* Text written to `cout` and `cerr` is not modelled.
-/

namespace Quiz

/-! ## Machine integers -/

/-- Smallest value of `int`. -/
def INT_MIN : Int := -2147483648

/-- Largest value of `int`. -/
def INT_MAX : Int := 2147483647

/-- Conversion `static_cast<int>(n)` of an integer of any width: reduction modulo `2^32`
into the range of `int`. -/
def to_int (n : Int) : Int := (n + 2147483648) % 4294967296 - 2147483648

/-! ## JSON values (nlohmann::json) -/

/-- A parsed JSON document, with the value kinds of `nlohmann::json` that a text file can
produce.  An object is its list of members, looked up by the first matching key. -/
inductive Json where
  | null
  | boolean (b : Bool)
  | number_integer (n : Int)
  | number_unsigned (n : Nat)
  | number_float (x : ℚ)
  | string (s : String)
  | array (elements : List Json)
  | object (members : List (String × Json))

/-- How a library call that does not deliver a value ends: `type_error` is the exception
`json::type_error` (a `json::exception`); `undefined` means the C++ standard assigns the
evaluation no behaviour. -/
inductive Fault where
  | type_error
  | undefined
  deriving DecidableEq, Repr

/-- The test `j.is_array()`. -/
def Json.is_array : Json → Bool
  | .array _ => true
  | _ => false

/-- The test `j.contains(key)`: true only for an object that has a member `key`. -/
def Json.contains (j : Json) (key : String) : Bool :=
  match j with
  | .object members => (members.lookup key).isSome
  | _ => false

/-- The access `j[key]` on a `const json`: the member's value; `type_error` (305) when `j` is
not an object; undefined behaviour when the object has no such member. -/
def Json.at (j : Json) (key : String) : Except Fault Json :=
  match j with
  | .object members =>
    match members.lookup key with
    | some v => .ok v
    | none => .error .undefined
  | _ => .error .type_error

/-- The conversion `j.get<std::string>()`: `type_error` (302) unless `j` is a string. -/
def get_string : Json → Except Fault String
  | .string s => .ok s
  | _ => .error .type_error

/-- Element-wise `get<std::string>()` over the elements of an array, in order, stopping at
the first element that is not a string. -/
def get_strings : List Json → Except Fault (List String)
  | [] => .ok []
  | e :: es =>
    match get_string e with
    | .error f => .error f
    | .ok s =>
      match get_strings es with
      | .error f => .error f
      | .ok ss => .ok (s :: ss)

/-- The conversion `j.get<std::vector<std::string>>()`: `type_error` (302) unless `j` is an
array all of whose elements are strings. -/
def get_string_vector : Json → Except Fault (List String)
  | .array elements => get_strings elements
  | _ => .error .type_error

/-- The conversion `j.get<int>()`.  Integers are narrowed with `static_cast<int>`, booleans
become `0` or `1`, a floating-point number is truncated toward zero and the conversion is
undefined when the truncated value is not representable in `int`; every other kind of value
raises `type_error` (302). -/
def get_int : Json → Except Fault Int
  | .number_unsigned n => .ok (to_int n)
  | .number_integer n => .ok (to_int n)
  | .number_float x =>
    if INT_MIN ≤ x.num.tdiv x.den ∧ x.num.tdiv x.den ≤ INT_MAX then .ok (x.num.tdiv x.den)
    else .error .undefined
  | .boolean b => .ok (if b then 1 else 0)
  | _ => .error .type_error

/-! ## Loader -/

/-- The struct `Question`. -/
structure Question where
  text : String
  choices : List String
  answer_index : Int
  deriving DecidableEq, Repr

/-- What `ifstream file(filename)` followed by `file >> j` yields. -/
inductive QuestionsFile where
  | not_open
  | parse_error
  | parsed (j : Json)

/-- Lines 64-67 of `load_questions`: the three assignments that fill `Question q`, in
source order, ending at the first one that throws. -/
def read_question (item : Json) : Except Fault Question :=
  match item.at "question" with
  | .error f => .error f
  | .ok jq =>
    match get_string jq with
    | .error f => .error f
    | .ok text =>
      match item.at "choices" with
      | .error f => .error f
      | .ok jc =>
        match get_string_vector jc with
        | .error f => .error f
        | .ok choices =>
          match item.at "answer" with
          | .error f => .error f
          | .ok ja =>
            match get_int ja with
            | .error f => .error f
            | .ok answer_index => .ok ⟨text, choices, answer_index⟩

/-- The range-based `for` loop of `load_questions` (lines 59-75) inside its `try` block,
together with the `catch` handler and the final `return true`.  The second argument is the
current content of the output vector `questions`.  The result is the returned flag and the
content of `questions` on return; `none` when the run has undefined behaviour. -/
def load_questions_loop : List Json → List Question → Option (Bool × List Question)
  | [], questions => some (true, questions)
  | item :: rest, questions =>
    if !item.contains "question" || !item.contains "choices" || !item.contains "answer" then
      load_questions_loop rest questions
    else
      match read_question item with
      | .error .type_error => some (false, questions)
      | .error .undefined => none
      | .ok q =>
        if q.answer_index < 0 || q.answer_index ≥ to_int q.choices.length then
          load_questions_loop rest questions
        else
          load_questions_loop rest (questions ++ [q])

/-- The function `load_questions(filename, questions)`. -/
def load_questions (file : QuestionsFile) (questions : List Question) :
    Option (Bool × List Question) :=
  match file with
  | .not_open => some (false, questions)
  | .parse_error => some (false, questions)
  | .parsed j =>
    if !j.is_array then some (false, questions)
    else
      match j with
      | .array items => load_questions_loop items questions
      | _ => some (false, questions)

/-! ## Standard input (`std::cin`) -/

/-- The whitespace characters that formatted extraction skips in the "C" locale. -/
def isspace (c : Char) : Bool :=
  c == ' ' || c == '\t' || c == '\n' || c == '\x0b' || c == '\x0c' || c == '\r'

/-- Removal of leading whitespace, as done before a formatted extraction. -/
def skipws : List Char → List Char
  | [] => []
  | c :: cs => if isspace c then skipws cs else c :: cs

/-- Consumption of the longest run of decimal digits at the front of the input, accumulating
its value onto `acc`. -/
def read_digits : List Char → Nat → Nat × List Char
  | [], acc => (acc, [])
  | c :: cs, acc =>
    if c.isDigit then read_digits cs (10 * acc + (c.toNat - 48)) else (acc, c :: cs)

/-- The extraction `cin >> choice` into an `int`, on a stream in good state: skip whitespace,
read an optional sign and the longest run of digits.  The result is the extracted value and
the characters left in the stream; the value is `none` when the extraction fails (end of
input, no digit, or a number outside the range of `int`). -/
def extract_int (cin : List Char) : Option Int × List Char :=
  match skipws cin with
  | [] => (none, [])
  | c :: cs =>
    let negative := c == '-'
    let body := if c == '-' || c == '+' then cs else c :: cs
    match body with
    | [] => (none, [])
    | d :: ds =>
      if d.isDigit then
        let r := read_digits (d :: ds) 0
        let v : Int := if negative then -(r.1 : Int) else (r.1 : Int)
        if INT_MIN ≤ v ∧ v ≤ INT_MAX then (some v, r.2) else (none, r.2)
      else (none, d :: ds)

/-- The call `cin.ignore(numeric_limits<streamsize>::max(), '\n')`: discard characters up to
and including the next newline, or everything when there is none. -/
def ignore_line : List Char → List Char
  | [] => []
  | c :: cs => if c == '\n' then cs else ignore_line cs

/-! ## Session runner -/

/-- The `while (true)` loop of `get_user_choice`, at most `fuel` iterations.  The result is
the returned zero-based index and the characters left on `cin`; `none` when the loop has
not returned within `fuel` iterations. -/
def get_user_choice_loop (num_choices : Int) : Nat → List Char → Option (Int × List Char)
  | 0, _ => none
  | fuel + 1, cin =>
    match extract_int cin with
    | (none, cin1) => get_user_choice_loop num_choices fuel (ignore_line cin1)
    | (some choice, cin1) =>
      if choice < 1 || choice > num_choices then get_user_choice_loop num_choices fuel cin1
      else some (choice - 1, ignore_line cin1)

/-- The function `get_user_choice(num_choices)` reading from `cin`.  Every iteration that
does not return consumes at least one character unless the input is exhausted, so one
iteration per character and one more decide the outcome: `none` means the loop never
returns on this input. -/
def get_user_choice (num_choices : Int) (cin : List Char) : Option (Int × List Char) :=
  get_user_choice_loop num_choices (cin.length + 1) cin

/-- The accumulators of the session loop of `main`. -/
structure Session where
  total_attempts : Int
  score : Int
  time_per_question : List ℚ

/-- The `for` loop of `main` (lines 125-151) over the questions not yet asked; `i` is the
loop index, `clock (2 * i)` and `clock (2 * i + 1)` are the two clock readings taken for
question `i`.  The result is `none` when some call of `get_user_choice` never returns. -/
def session_loop (clock : Nat → ℚ) :
    List Question → Nat → List Char → Session → Option (Session × List Char)
  | [], _, cin, s => some (s, cin)
  | q :: rest, i, cin, s =>
    let start_time := clock (2 * i)
    match get_user_choice (to_int q.choices.length) cin with
    | none => none
    | some (user_choice, cin1) =>
      let end_time := clock (2 * i + 1)
      let elapsed_seconds := end_time - start_time
      session_loop clock rest (i + 1) cin1
        { total_attempts := s.total_attempts + 1
          score := if user_choice = q.answer_index then s.score + 1 else s.score
          time_per_question := s.time_per_question ++ [elapsed_seconds] }

/-- The figures printed on the summary screen. -/
structure Summary where
  total_questions : Nat
  attempts : Int
  score : Int
  total_time : ℚ
  avg_time : ℚ

/-- The outcome of a run of `main` that returns: the exit code and, when the summary screen
was reached, its figures. -/
structure Exit where
  code : Int
  summary : Option Summary

/-- The function `main`.  The result is `none` when the run does not return: the loader has
undefined behaviour or a prompt waits for input forever. -/
def main (file : QuestionsFile) (cin : List Char) (clock : Nat → ℚ) : Option Exit :=
  match load_questions file [] with
  | none => none
  | some (false, _) => some ⟨1, none⟩
  | some (true, questions) =>
    if questions.isEmpty then some ⟨1, none⟩
    else
      match session_loop clock questions 0 cin ⟨0, 0, []⟩ with
      | none => none
      | some (s, _) =>
        let total_time : ℚ := s.time_per_question.foldl (fun acc t => acc + t) 0
        let avg_time : ℚ := if s.total_attempts > 0 then total_time / s.total_attempts else 0
        some ⟨0, some ⟨questions.length, s.total_attempts, s.score, total_time, avg_time⟩⟩

/-! ## One step of the scan -/

/-- One iteration of the scan of `load_questions` ends in one of four ways: the element is
skipped (`continue`), a question is appended (`push_back`), an exception leaves the loop,
or the behaviour is undefined. -/
inductive Verdict where
  | skip
  | keep (q : Question)
  | throw
  | undef

/-- The body of the scan (lines 60-74) on one element, read off `load_questions_loop`. -/
def verdict (item : Json) : Verdict :=
  if !item.contains "question" || !item.contains "choices" || !item.contains "answer" then .skip
  else
    match read_question item with
    | .error .type_error => .throw
    | .error .undefined => .undef
    | .ok q =>
      if q.answer_index < 0 || q.answer_index ≥ to_int q.choices.length then .skip else .keep q

/-- The question that the scan appends for an element, if it appends one: the element
passes validation. -/
def accepted (item : Json) : Option Question :=
  match verdict item with
  | .keep q => some q
  | _ => none

/-! ## Vocabulary of the specification -/

/-- The record has the three required fields `question`, `choices` and `answer`. -/
def has_fields (item : Json) : Bool :=
  item.contains "question" && item.contains "choices" && item.contains "answer"

/-- The value is a JSON string. -/
def Json.is_string : Json → Bool
  | .string _ => true
  | _ => false

/-- The value is a JSON array of strings. -/
def Json.is_string_list : Json → Bool
  | .array elements => elements.all Json.is_string
  | _ => false

/-- The value is a JSON number (integer or floating point) or a JSON boolean: the kinds of
value that `get<int>()` converts. -/
def Json.is_arithmetic : Json → Bool
  | .number_integer _ => true
  | .number_unsigned _ => true
  | .number_float _ => true
  | .boolean _ => true
  | _ => false

/-- The record has the three fields, and one of them has a type the loader cannot convert:
the question is not a string, the choices are not an array of strings, or the answer is
neither a number nor a boolean. -/
def wrong_type (item : Json) : Bool :=
  match item with
  | .object members =>
    match members.lookup "question", members.lookup "choices", members.lookup "answer" with
    | some jq, some jc, some ja => !jq.is_string || !jc.is_string_list || !ja.is_arithmetic
    | _, _, _ => false
  | _ => false

/-- The strings of a list of JSON values that are all strings. -/
def as_strings : List Json → Option (List String)
  | [] => some []
  | .string s :: rest => (as_strings rest).map (fun ss => s :: ss)
  | _ :: _ => none

/-- The value of a JSON integer. -/
def as_integer : Json → Option Int
  | .number_integer n => some n
  | .number_unsigned n => some (n : Int)
  | _ => none

/-- The record as the specification describes it: all three fields present and correctly
typed, a prompt string, a list of choice strings and an integer answer index.  The result
carries the three field values as they stand in the file. -/
def typed_record (item : Json) : Option Question :=
  match item with
  | .object members =>
    match members.lookup "question", members.lookup "choices", members.lookup "answer" with
    | some (.string text), some (.array elements), some ja =>
      match as_strings elements, as_integer ja with
      | some choices, some answer => some ⟨text, choices, answer⟩
      | _, _ => none
    | _, _, _ => none
  | _ => none

/-- The record as the specification counts it: fields present, correctly typed, and the
answer index within bounds, `0 ≤ answer < len(choices)`. -/
def valid_record (item : Json) : Bool :=
  match typed_record item with
  | some q => decide (0 ≤ q.answer_index) && decide (q.answer_index < q.choices.length)
  | none => false

/-- The record is typed as the specification describes and its numbers fit the machine:
the answer index is representable in `int` and so is the number of choices. -/
def representable_record (item : Json) : Bool :=
  match typed_record item with
  | some q =>
    decide (INT_MIN ≤ q.answer_index) && decide (q.answer_index ≤ INT_MAX) &&
      decide ((q.choices.length : Int) ≤ INT_MAX)
  | none => false

/-- A well-typed record with the given prompt, choices and answer index. -/
def record (text : String) (choices : List String) (answer : Nat) : Json :=
  .object [("question", .string text), ("choices", .array (choices.map Json.string)),
    ("answer", .number_unsigned answer)]

/-- The two-record example of the specification. -/
def spec_example : List Json :=
  [record "2+2?" ["3", "4", "5"] 1, record "Bad" ["a"] 5]

/-- A record with all three fields whose question is a number instead of a string. -/
def mistyped_record : Json :=
  .object [("question", .number_unsigned 5), ("choices", .array [.string "a", .string "b"]),
    ("answer", .number_unsigned 0)]

/-- The answers accepted in a session: the values that the successive calls of
`get_user_choice` made by the loop of `main` return, one per question, when all of them
return. -/
def accepted_answers : List Question → List Char → Option (List Int)
  | [], _ => some []
  | q :: rest, cin =>
    match get_user_choice (to_int q.choices.length) cin with
    | none => none
    | some (user_choice, cin1) =>
      match accepted_answers rest cin1 with
      | none => none
      | some answers => some (user_choice :: answers)

/-! ## Lemmas on the loader -/

theorem to_int_of_fits (n : Int) (h1 : INT_MIN ≤ n) (h2 : n ≤ INT_MAX) : to_int n = n := by
  unfold to_int
  unfold INT_MIN at h1
  unfold INT_MAX at h2
  omega

theorem to_int_le_of_nonneg (n : Int) (h : 0 ≤ n) : to_int n ≤ n := by
  unfold to_int
  omega

theorem load_questions_loop_cons (item : Json) (rest : List Json) (qs : List Question) :
    load_questions_loop (item :: rest) qs =
      match verdict item with
      | .skip => load_questions_loop rest qs
      | .keep q => load_questions_loop rest (qs ++ [q])
      | .throw => some (false, qs)
      | .undef => none := by
  rw [load_questions_loop, verdict]
  split
  · rfl
  · split
    · rfl
    · rfl
    · split <;> rfl

theorem load_questions_loop_append (pre post : List Json) (qs : List Question) :
    load_questions_loop (pre ++ post) qs =
      match load_questions_loop pre qs with
      | some (true, qs1) => load_questions_loop post qs1
      | r => r := by
  induction pre generalizing qs with
  | nil => simp [load_questions_loop]
  | cons item pre ih =>
    rw [List.cons_append, load_questions_loop_cons, load_questions_loop_cons]
    cases verdict item with
    | skip => exact ih qs
    | keep q => exact ih _
    | throw => rfl
    | undef => rfl

theorem load_questions_loop_true (items : List Json) (qs qs1 : List Question)
    (h : load_questions_loop items qs = some (true, qs1)) :
    qs1 = qs ++ items.filterMap accepted := by
  induction items generalizing qs with
  | nil => simp [load_questions_loop] at h; simp [h]
  | cons item rest ih =>
    rw [load_questions_loop_cons] at h
    rw [List.filterMap_cons, accepted]
    cases hv : verdict item with
    | skip => rw [hv] at h; exact ih qs h
    | keep q => rw [hv] at h; simpa using ih _ h
    | throw => rw [hv] at h; simp at h
    | undef => rw [hv] at h; simp at h

theorem load_questions_loop_false (items : List Json) (qs qs1 : List Question)
    (h : load_questions_loop items qs = some (false, qs1)) :
    ∃ pre bad post, items = pre ++ bad :: post ∧ verdict bad = .throw ∧
      load_questions_loop pre qs = some (true, qs1) := by
  induction items generalizing qs with
  | nil => simp [load_questions_loop] at h
  | cons item rest ih =>
    rw [load_questions_loop_cons] at h
    cases hv : verdict item with
    | skip =>
      rw [hv] at h
      obtain ⟨pre, bad, post, h1, h2, h3⟩ := ih qs h
      refine ⟨item :: pre, bad, post, by simp [h1], h2, ?_⟩
      rw [load_questions_loop_cons, hv]
      exact h3
    | keep q =>
      rw [hv] at h
      obtain ⟨pre, bad, post, h1, h2, h3⟩ := ih _ h
      refine ⟨item :: pre, bad, post, by simp [h1], h2, ?_⟩
      rw [load_questions_loop_cons, hv]
      exact h3
    | throw =>
      rw [hv] at h
      simp only [Option.some.injEq, Prod.mk.injEq, true_and] at h
      exact ⟨[], item, rest, rfl, hv, by simp [load_questions_loop, h]⟩
    | undef => rw [hv] at h; simp at h

theorem load_questions_loop_extends (items : List Json) (qs qs1 : List Question) (b : Bool)
    (h : load_questions_loop items qs = some (b, qs1)) :
    ∃ added, qs1 = qs ++ added ∧ ∀ q ∈ added, ∃ item ∈ items, accepted item = some q := by
  induction items generalizing qs with
  | nil =>
    simp only [load_questions_loop, Option.some.injEq, Prod.mk.injEq] at h
    exact ⟨[], by simp [h.2], by simp⟩
  | cons item rest ih =>
    rw [load_questions_loop_cons] at h
    cases hv : verdict item with
    | skip =>
      rw [hv] at h
      obtain ⟨added, h1, h2⟩ := ih qs h
      refine ⟨added, h1, fun q hq => ?_⟩
      obtain ⟨it, hit, hacc⟩ := h2 q hq
      exact ⟨it, List.mem_cons_of_mem _ hit, hacc⟩
    | keep q0 =>
      rw [hv] at h
      obtain ⟨added, h1, h2⟩ := ih _ h
      refine ⟨q0 :: added, by simp [h1], fun q hq => ?_⟩
      rcases List.mem_cons.mp hq with hq | hq
      · exact ⟨item, List.mem_cons_self _ _, by simp [accepted, hv, hq]⟩
      · obtain ⟨it, hit, hacc⟩ := h2 q hq
        exact ⟨it, List.mem_cons_of_mem _ hit, hacc⟩
    | throw =>
      rw [hv] at h
      simp only [Option.some.injEq, Prod.mk.injEq] at h
      exact ⟨[], by simp [h.2], by simp⟩
    | undef => rw [hv] at h; simp at h

theorem verdict_keep_in_bounds (item : Json) (q : Question) (h : verdict item = .keep q) :
    0 ≤ q.answer_index ∧ q.answer_index < q.choices.length := by
  unfold verdict at h
  split at h
  · simp at h
  · split at h
    · simp at h
    · simp at h
    · rename_i q0 _
      split at h
      · simp at h
      · rename_i hc
        simp only [Verdict.keep.injEq] at h
        subst h
        simp only [Bool.or_eq_true, decide_eq_true_eq, not_or, not_lt, ge_iff_le, not_le] at hc
        have := to_int_le_of_nonneg (q0.choices.length : Int) (by positivity)
        omega

theorem accepted_eq_some (item : Json) (q : Question) :
    accepted item = some q ↔ verdict item = .keep q := by
  unfold accepted
  cases verdict item <;> simp

theorem accepted_in_bounds (item : Json) (q : Question) (h : accepted item = some q) :
    0 ≤ q.answer_index ∧ q.answer_index < q.choices.length :=
  verdict_keep_in_bounds item q ((accepted_eq_some item q).mp h)

theorem verdict_of_missing_field (item : Json) (h : has_fields item = false) :
    verdict item = .skip := by
  unfold verdict
  unfold has_fields at h
  rw [if_pos]
  cases h1 : item.contains "question" <;> cases h2 : item.contains "choices" <;>
    cases h3 : item.contains "answer" <;> simp_all

theorem has_fields_iff (item : Json) :
    has_fields item = true ↔
      ∃ members jq jc ja, item = .object members ∧ members.lookup "question" = some jq ∧
        members.lookup "choices" = some jc ∧ members.lookup "answer" = some ja := by
  unfold has_fields
  cases item with
  | object members =>
    simp only [Json.contains, Bool.and_eq_true, Option.isSome_iff_exists, Json.object.injEq]
    constructor
    · rintro ⟨⟨⟨jq, hq⟩, ⟨jc, hc⟩⟩, ⟨ja, ha⟩⟩
      exact ⟨members, jq, jc, ja, rfl, hq, hc, ha⟩
    · rintro ⟨ms, jq, jc, ja, rfl, hq, hc, ha⟩
      exact ⟨⟨⟨jq, hq⟩, ⟨jc, hc⟩⟩, ⟨ja, ha⟩⟩
  | _ => simp [Json.contains]

theorem get_strings_of_all (es : List Json) (h : es.all Json.is_string = true) :
    ∃ ss, get_strings es = .ok ss := by
  induction es with
  | nil => exact ⟨[], rfl⟩
  | cons e es ih =>
    simp only [List.all_cons, Bool.and_eq_true] at h
    obtain ⟨ss, hss⟩ := ih h.2
    cases e <;> simp [Json.is_string] at h
    rename_i s
    exact ⟨s :: ss, by simp [get_strings, get_string, hss]⟩

theorem get_strings_of_not_all (es : List Json) (h : es.all Json.is_string = false) :
    get_strings es = .error .type_error := by
  induction es with
  | nil => simp at h
  | cons e es ih =>
    cases e with
    | string s =>
      have h2 : es.all Json.is_string = false := by simpa [Json.is_string] using h
      simp [get_strings, get_string, ih h2]
    | _ => simp [get_strings, get_string]

theorem get_strings_of_as_strings (es : List Json) (ss : List String)
    (h : as_strings es = some ss) : get_strings es = .ok ss := by
  induction es generalizing ss with
  | nil => simp [as_strings] at h; simp [get_strings, h]
  | cons e es ih =>
    cases e with
    | string s =>
      simp only [as_strings, Option.map_eq_some'] at h
      obtain ⟨ss1, h1, h2⟩ := h
      simp [get_strings, get_string, ih ss1 h1, h2]
    | _ => simp [as_strings] at h

theorem read_question_of_members (members : List (String × Json)) (jq jc ja : Json)
    (hq : members.lookup "question" = some jq) (hc : members.lookup "choices" = some jc)
    (ha : members.lookup "answer" = some ja) :
    read_question (.object members) =
      match get_string jq with
      | .error f => .error f
      | .ok text =>
        match get_string_vector jc with
        | .error f => .error f
        | .ok choices =>
          match get_int ja with
          | .error f => .error f
          | .ok answer_index => .ok ⟨text, choices, answer_index⟩ := by
  simp only [read_question, Json.at, hq, hc, ha]

theorem contains_of_members (members : List (String × Json)) (jq jc ja : Json)
    (hq : members.lookup "question" = some jq) (hc : members.lookup "choices" = some jc)
    (ha : members.lookup "answer" = some ja) :
    (!(Json.object members).contains "question" || !(Json.object members).contains "choices" ||
      !(Json.object members).contains "answer") = false := by
  simp [Json.contains, hq, hc, ha]

theorem verdict_of_wrong_type (item : Json) (h : wrong_type item = true) :
    verdict item = .throw := by
  unfold wrong_type at h
  split at h
  · rename_i members
    split at h
    · rename_i jq jc ja hq hc ha
      unfold verdict
      rw [contains_of_members members jq jc ja hq hc ha,
        read_question_of_members members jq jc ja hq hc ha]
      simp only [Bool.false_eq_true, if_false]
      cases jq with
      | string s =>
        simp only [get_string]
        cases jc with
        | array es =>
          simp only [get_string_vector]
          cases hall : es.all Json.is_string with
          | false => rw [get_strings_of_not_all es hall]
          | true =>
            obtain ⟨ss, hss⟩ := get_strings_of_all es hall
            rw [hss]
            cases ja <;> simp [Json.is_string, Json.is_string_list, Json.is_arithmetic, hall] at h <;>
              simp [get_int]
        | _ => simp [get_string_vector]
      | _ => simp [get_string]
    · simp at h
  · simp at h

theorem get_int_of_arithmetic (ja : Json) (h : ja.is_arithmetic = true) :
    get_int ja ≠ .error .type_error := by
  cases ja with
  | number_float x => simp only [get_int]; split <;> simp
  | number_integer n => simp [get_int]
  | number_unsigned n => simp [get_int]
  | boolean b => simp [get_int]
  | _ => simp [Json.is_arithmetic] at h

theorem wrong_type_of_verdict (item : Json) (h : verdict item = .throw) :
    wrong_type item = true := by
  cases hf : has_fields item with
  | false => rw [verdict_of_missing_field item hf] at h; simp at h
  | true =>
    obtain ⟨members, jq, jc, ja, rfl, hq, hc, ha⟩ := (has_fields_iff item).mp hf
    unfold verdict at h
    rw [contains_of_members members jq jc ja hq hc ha,
      read_question_of_members members jq jc ja hq hc ha] at h
    simp only [Bool.false_eq_true, if_false] at h
    simp only [wrong_type, hq, hc, ha]
    cases jq with
    | string s =>
      simp only [get_string] at h
      cases jc with
      | array es =>
        simp only [get_string_vector] at h
        cases hall : es.all Json.is_string with
        | false => simp [Json.is_string_list, hall]
        | true =>
          obtain ⟨ss, hss⟩ := get_strings_of_all es hall
          rw [hss] at h
          cases harith : ja.is_arithmetic with
          | false => simp [harith]
          | true =>
            exfalso
            cases hg : get_int ja with
            | error f =>
              cases f with
              | type_error => exact get_int_of_arithmetic ja harith hg
              | undefined => rw [hg] at h; simp at h
            | ok v =>
              rw [hg] at h
              simp only at h
              split at h <;> simp at h
      | _ => simp [Json.is_string_list]
    | _ => simp [Json.is_string]

theorem verdict_of_typed_record (item : Json) (q : Question) (h : typed_record item = some q)
    (h1 : INT_MIN ≤ q.answer_index) (h2 : q.answer_index ≤ INT_MAX)
    (h3 : (q.choices.length : Int) ≤ INT_MAX) :
    verdict item =
      if 0 ≤ q.answer_index ∧ q.answer_index < q.choices.length then .keep q else .skip := by
  unfold typed_record at h
  split at h
  · rename_i members
    split at h
    · rename_i text es ja hq hc ha
      split at h
      · rename_i choices answer hch han
        simp only [Option.some.injEq] at h
        subst h
        unfold verdict
        rw [contains_of_members members _ _ ja hq hc ha,
          read_question_of_members members _ _ ja hq hc ha]
        have hint : get_int ja = .ok answer := by
          cases ja with
          | number_integer n =>
            simp only [as_integer, Option.some.injEq] at han
            subst han
            simp [get_int, to_int_of_fits n h1 h2]
          | number_unsigned n =>
            simp only [as_integer, Option.some.injEq] at han
            subst han
            simp [get_int, to_int_of_fits n h1 h2]
          | _ => simp [as_integer] at han
        have hlen : to_int (choices.length : Int) = choices.length :=
          to_int_of_fits _ (by unfold INT_MIN; omega) h3
        simp only [get_string, get_string_vector, get_strings_of_as_strings es choices hch, hint,
          Bool.false_eq_true, if_false, hlen]
        by_cases hb : 0 ≤ answer ∧ answer < (choices.length : Int)
        · rw [if_pos hb, if_neg]
          simp only [Bool.or_eq_true, decide_eq_true_eq, not_or, not_lt, ge_iff_le, not_le]
          exact hb
        · rw [if_neg hb, if_pos]
          simp only [Bool.or_eq_true, decide_eq_true_eq, ge_iff_le]
          by_contra hcon
          exact hb (by omega)
      · simp at h
    · simp at h
  · simp at h

theorem as_strings_of_get_strings (es : List Json) (ss : List String)
    (h : get_strings es = .ok ss) : as_strings es = some ss := by
  induction es generalizing ss with
  | nil => simp [get_strings] at h; simp [as_strings, h]
  | cons e es ih =>
    cases e with
    | string s =>
      simp only [get_strings, get_string] at h
      cases hg : get_strings es with
      | error f => rw [hg] at h; simp at h
      | ok ss1 =>
        rw [hg] at h
        simp only [Except.ok.injEq] at h
        simp [as_strings, ih ss1 hg, h]
    | _ => simp [get_strings, get_string] at h

theorem has_fields_of_typed_record (item : Json) (q : Question)
    (h : typed_record item = some q) : has_fields item = true := by
  unfold typed_record at h
  split at h
  · rename_i members
    split at h
    · rename_i text es ja hq hc ha
      exact (has_fields_iff _).mpr ⟨members, _, _, ja, rfl, hq, hc, ha⟩
    · simp at h
  · simp at h

theorem fields_of_accepted (item : Json) (q : Question) (h : accepted item = some q) :
    ∃ members elements ja, item = .object members ∧
      members.lookup "question" = some (.string q.text) ∧
      members.lookup "choices" = some (.array elements) ∧
      as_strings elements = some q.choices ∧
      members.lookup "answer" = some ja ∧ get_int ja = .ok q.answer_index := by
  have hv := (accepted_eq_some item q).mp h
  cases hf : has_fields item with
  | false => rw [verdict_of_missing_field item hf] at hv; simp at hv
  | true =>
    obtain ⟨members, jq, jc, ja, rfl, hq, hc, ha⟩ := (has_fields_iff item).mp hf
    unfold verdict at hv
    rw [contains_of_members members jq jc ja hq hc ha,
      read_question_of_members members jq jc ja hq hc ha] at hv
    simp only [Bool.false_eq_true, if_false] at hv
    cases jq with
    | string s =>
      simp only [get_string] at hv
      cases jc with
      | array es =>
        simp only [get_string_vector] at hv
        cases hg : get_strings es with
        | error f => rw [hg] at hv; cases f <;> simp at hv
        | ok ss =>
          rw [hg] at hv
          cases hi : get_int ja with
          | error f => rw [hi] at hv; cases f <;> simp at hv
          | ok v =>
            rw [hi] at hv
            simp only at hv
            split at hv
            · simp at hv
            · simp only [Verdict.keep.injEq] at hv
              subst hv
              exact ⟨members, es, ja, rfl, hq, hc, as_strings_of_get_strings es ss hg, ha, hi⟩
      | _ => simp [get_string_vector] at hv
    | _ => simp [get_string] at hv

theorem get_int_of_as_integer (ja : Json) (n v : Int) (h : as_integer ja = some n)
    (hv : get_int ja = .ok v) : v = to_int n := by
  cases ja with
  | number_integer m =>
    simp only [as_integer, Option.some.injEq] at h
    simp only [get_int, Except.ok.injEq] at hv
    rw [← hv, h]
  | number_unsigned m =>
    simp only [as_integer, Option.some.injEq] at h
    simp only [get_int, Except.ok.injEq] at hv
    rw [← hv, h]
  | _ => simp [as_integer] at h

theorem load_questions_array (items : List Json) (qs : List Question) :
    load_questions (.parsed (.array items)) qs = load_questions_loop items qs := by
  simp [load_questions, Json.is_array]

theorem load_questions_loop_count (items : List Json) (qs : List Question)
    (h : ∀ item ∈ items, has_fields item = true → representable_record item = true) :
    ∃ qs1, load_questions_loop items qs = some (true, qs1) ∧
      qs1.length = qs.length + items.countP valid_record := by
  induction items generalizing qs with
  | nil => exact ⟨qs, rfl, by simp⟩
  | cons item rest ih =>
    have hrest : ∀ it ∈ rest, has_fields it = true → representable_record it = true :=
      fun it hit => h it (List.mem_cons_of_mem _ hit)
    rw [load_questions_loop_cons]
    cases hf : has_fields item with
    | false =>
      have hnv : valid_record item = false := by
        unfold valid_record
        cases ht : typed_record item with
        | none => rfl
        | some q => rw [has_fields_of_typed_record item q ht] at hf; simp at hf
      rw [verdict_of_missing_field item hf, List.countP_cons, hnv]
      simpa using ih qs hrest
    | true =>
      have hr := h item (List.mem_cons_self _ _) hf
      unfold representable_record at hr
      cases ht : typed_record item with
      | none => rw [ht] at hr; simp at hr
      | some q =>
        rw [ht] at hr
        simp only [Bool.and_eq_true, decide_eq_true_eq] at hr
        rw [verdict_of_typed_record item q ht hr.1.1 hr.1.2 hr.2]
        by_cases hb : 0 ≤ q.answer_index ∧ q.answer_index < (q.choices.length : Int)
        · have hval : valid_record item = true := by
            simp [valid_record, ht, hb.1, hb.2]
          rw [if_pos hb, List.countP_cons, hval]
          obtain ⟨qs1, h1, h2⟩ := ih (qs ++ [q]) hrest
          refine ⟨qs1, h1, ?_⟩
          rw [h2]
          simp
          omega
        · have hval : valid_record item = false := by
            simp only [valid_record, ht, Bool.and_eq_false_iff, decide_eq_false_iff_not]
            by_contra hcon
            exact hb (by constructor <;> omega)
          rw [if_neg hb, List.countP_cons, hval]
          simpa using ih qs hrest

theorem load_questions_extends (file : QuestionsFile) (qs qs1 : List Question) (b : Bool)
    (h : load_questions file qs = some (b, qs1)) :
    ∃ added, qs1 = qs ++ added ∧ ∀ q ∈ added, ∃ item, accepted item = some q := by
  cases file with
  | not_open =>
    simp only [load_questions, Option.some.injEq, Prod.mk.injEq] at h
    exact ⟨[], by simp [h.2], by simp⟩
  | parse_error =>
    simp only [load_questions, Option.some.injEq, Prod.mk.injEq] at h
    exact ⟨[], by simp [h.2], by simp⟩
  | parsed j =>
    cases j with
    | array items =>
      rw [load_questions_array] at h
      obtain ⟨added, h1, h2⟩ := load_questions_loop_extends items qs qs1 b h
      exact ⟨added, h1, fun q hq => (h2 q hq).imp fun _ hx => hx.2⟩
    | _ =>
      simp only [load_questions, Json.is_array, Bool.not_false, if_true, Option.some.injEq,
        Prod.mk.injEq] at h
      exact ⟨[], by simp [h.2], by simp⟩

/-! ## Lemmas on formatted input -/

theorem skipws_length (l : List Char) : (skipws l).length ≤ l.length := by
  induction l with
  | nil => simp [skipws]
  | cons c cs ih =>
    rw [skipws]
    split
    · simp only [List.length_cons]; omega
    · exact le_refl _

theorem read_digits_length (l : List Char) (acc : Nat) :
    (read_digits l acc).2.length ≤ l.length := by
  induction l generalizing acc with
  | nil => simp [read_digits]
  | cons c cs ih =>
    rw [read_digits]
    split
    · have := ih (10 * acc + (c.toNat - 48))
      simp only [List.length_cons]
      omega
    · exact le_refl _

theorem ignore_line_length (l : List Char) : (ignore_line l).length ≤ l.length - 1 := by
  induction l with
  | nil => simp [ignore_line]
  | cons c cs ih =>
    rw [ignore_line]
    split
    · simp
    · simp only [List.length_cons, Nat.add_sub_cancel]
      omega

theorem extract_int_length (cin : List Char) :
    (extract_int cin).2.length ≤ cin.length ∧
      ((extract_int cin).1.isSome = true → (extract_int cin).2.length < cin.length) := by
  have hsk := skipws_length cin
  unfold extract_int
  cases hs : skipws cin with
  | nil => simp
  | cons c cs =>
    rw [hs] at hsk
    simp only [List.length_cons] at hsk
    simp only
    cases hb : (if (c == '-' || c == '+') = true then cs else c :: cs) with
    | nil => simp
    | cons d ds =>
      have hlen : (d :: ds).length ≤ cs.length + 1 := by
        rw [← hb]
        split <;> simp
      simp only
      by_cases hd : d.isDigit = true
      · rw [if_pos hd]
        have hr : (read_digits (d :: ds) 0).2.length ≤ ds.length := by
          rw [read_digits, if_pos hd]
          exact read_digits_length ds _
        simp only [List.length_cons] at hlen
        split_ifs <;> simp <;> omega
      · rw [if_neg hd]
        simp only [Option.isSome_none, Bool.false_eq_true, false_implies, and_true]
        omega

theorem get_user_choice_loop_nil (num_choices : Int) (fuel : Nat) :
    get_user_choice_loop num_choices fuel [] = none := by
  induction fuel with
  | zero => rfl
  | succ fuel ih => simpa [get_user_choice_loop, extract_int, skipws, ignore_line] using ih

theorem get_user_choice_loop_succ (num_choices : Int) (fuel : Nat) (cin : List Char)
    (r : Int × List Char) (h : get_user_choice_loop num_choices fuel cin = some r) :
    get_user_choice_loop num_choices (fuel + 1) cin = some r := by
  induction fuel generalizing cin with
  | zero => simp [get_user_choice_loop] at h
  | succ fuel ih =>
    rw [get_user_choice_loop] at h ⊢
    split at h
    · exact ih _ h
    · split at h
      · rename_i hc
        rw [if_pos hc]
        exact ih _ h
      · rename_i hc
        rw [if_neg hc]
        exact h

theorem get_user_choice_loop_mono (num_choices : Int) (fuel more : Nat) (cin : List Char)
    (r : Int × List Char) (h : get_user_choice_loop num_choices fuel cin = some r)
    (hle : fuel ≤ more) : get_user_choice_loop num_choices more cin = some r := by
  induction more with
  | zero =>
    have : fuel = 0 := by omega
    rw [this] at h
    exact h
  | succ more ih =>
    by_cases heq : fuel = more + 1
    · rw [← heq]; exact h
    · exact get_user_choice_loop_succ _ _ _ _ (ih (by omega))

/-- When the loop of `get_user_choice` returns within some number of iterations, it does so
within one iteration per character of the input and one more: the bound built into
`get_user_choice` loses no result. -/
theorem get_user_choice_of_loop (num_choices : Int) (fuel : Nat) (cin : List Char)
    (r : Int × List Char) (h : get_user_choice_loop num_choices fuel cin = some r) :
    get_user_choice num_choices cin = some r := by
  unfold get_user_choice
  induction fuel generalizing cin with
  | zero => simp [get_user_choice_loop] at h
  | succ fuel ih =>
    cases cin with
    | nil => rw [get_user_choice_loop_nil] at h; simp at h
    | cons c cs =>
      obtain ⟨hle, hlt⟩ := extract_int_length (c :: cs)
      have hpos : (c :: cs).length = cs.length + 1 := rfl
      rw [get_user_choice_loop] at h ⊢
      split at h
      · rename_i cin1 hex
        rw [hex] at hle
        simp only at hle
        have hig := ignore_line_length cin1
        have := ih _ h
        exact get_user_choice_loop_mono _ _ _ _ _ this (by omega)
      · rename_i choice cin1 hex
        rw [hex] at hlt
        simp only [Option.isSome_some, forall_const] at hlt
        split at h
        · rename_i hc
          rw [if_pos hc]
          have := ih _ h
          exact get_user_choice_loop_mono _ _ _ _ _ this (by omega)
        · rename_i hc
          rw [if_neg hc]
          exact h

/-! ## Lemmas on the session loop -/

theorem session_loop_all_correct (clock : Nat → ℚ) (questions : List Question) (i : Nat)
    (cin : List Char) (s : Session)
    (h : accepted_answers questions cin = some (questions.map (fun q => q.answer_index))) :
    ∃ s1 cin1, session_loop clock questions i cin s = some (s1, cin1) ∧
      s1.score = s.score + questions.length ∧
      s1.total_attempts = s.total_attempts + questions.length := by
  induction questions generalizing i cin s with
  | nil => exact ⟨s, cin, rfl, by simp, by simp⟩
  | cons q rest ih =>
    rw [accepted_answers] at h
    rw [session_loop]
    simp only
    cases hg : get_user_choice (to_int q.choices.length) cin with
    | none => rw [hg] at h; simp at h
    | some r =>
      obtain ⟨user_choice, cin2⟩ := r
      rw [hg] at h
      simp only at h
      cases ha : accepted_answers rest cin2 with
      | none => rw [ha] at h; simp at h
      | some answers =>
        rw [ha] at h
        simp only [List.map_cons, Option.some.injEq, List.cons.injEq] at h
        obtain ⟨hu, hrest⟩ := h
        rw [hrest] at ha
        obtain ⟨s1, cin1, h1, h2, h3⟩ := ih (i + 1) cin2
          { total_attempts := s.total_attempts + 1
            score := if user_choice = q.answer_index then s.score + 1 else s.score
            time_per_question := s.time_per_question ++
              [clock (2 * i + 1) - clock (2 * i)] } ha
        refine ⟨s1, cin1, h1, ?_, ?_⟩
        · rw [h2, if_pos hu]
          simp only [List.length_cons, Nat.cast_add, Nat.cast_one]
          omega
        · rw [h3]
          simp only [List.length_cons, Nat.cast_add, Nat.cast_one]
          omega

/-! ## Claims on the loader -/

/-- C1, as stated, fails: in the array `[A, mistyped, B]` the second record has all three
fields but a numeric `question`; `load_questions` returns failure, not success, and the valid
record `B` that follows is not loaded. -/
theorem wrong_type_record_not_skipped :
    wrong_type mistyped_record = true ∧
    valid_record (record "B" ["u", "v"] 1) = true ∧
    load_questions
        (.parsed (.array [record "A" ["x", "y"] 0, mistyped_record, record "B" ["u", "v"] 1])) [] =
      some (false, [⟨"A", ["x", "y"], 0⟩]) := by
  decide

/-- C1, amended: a record that has all three fields but a field of the wrong type (question
not a string, choices not an array of strings, answer neither a number nor a boolean) is
fatal.  When the elements before it scan without exception and leave the output `qs1`
(the output before the call followed by the accepted records among them), the whole load
returns failure with the output `qs1`, whatever follows the record. -/
theorem wrong_type_record_aborts_load (pre post : List Json) (bad : Json)
    (qs qs1 : List Question) (hbad : wrong_type bad = true)
    (hpre : load_questions (.parsed (.array pre)) qs = some (true, qs1)) :
    load_questions (.parsed (.array (pre ++ bad :: post))) qs = some (false, qs1) ∧
      qs1 = qs ++ pre.filterMap accepted := by
  rw [load_questions_array] at hpre
  rw [load_questions_array, load_questions_loop_append, hpre]
  simp only
  rw [load_questions_loop_cons, verdict_of_wrong_type bad hbad]
  exact ⟨rfl, load_questions_loop_true pre qs qs1 hpre⟩

/-- C1, amended, on the array `[A, mistyped, B]`: the load fails and the output holds `A`. -/
theorem wrong_type_record_aborts_load_witness :
    (wrong_type mistyped_record = true ∧
      load_questions (.parsed (.array [record "A" ["x", "y"] 0])) [] =
        some (true, [⟨"A", ["x", "y"], 0⟩])) ∧
    (load_questions
        (.parsed (.array ([record "A" ["x", "y"] 0] ++ mistyped_record :: [record "B" ["u", "v"] 1])))
        [] = some (false, [⟨"A", ["x", "y"], 0⟩]) ∧
      [⟨"A", ["x", "y"], 0⟩] = [] ++ [record "A" ["x", "y"] 0].filterMap accepted) :=
  ⟨⟨by decide, by decide⟩,
    wrong_type_record_aborts_load [record "A" ["x", "y"] 0] [record "B" ["u", "v"] 1]
      mistyped_record [] [⟨"A", ["x", "y"], 0⟩] (by decide) (by decide)⟩

/-- C2, as stated, fails: on `[A, mistyped]` the scan accepts `A`, then throws on the second
record; `load_questions` returns failure and the output vector, empty before the call,
holds `A` on return. -/
theorem failed_load_keeps_partial_results :
    load_questions (.parsed (.array [record "A" ["x", "y"] 0, mistyped_record])) [] =
      some (false, [⟨"A", ["x", "y"], 0⟩]) ∧
    ([⟨"A", ["x", "y"], 0⟩] : List Question) ≠ [] := by
  decide

/-- C2, amended: when `load_questions` fails part-way through the scan, the exception comes
from a record with a wrongly typed field, the first record the scan does not get past, and
the output vector on return is its content before the call followed by the records accepted
before that record, in file order: nothing is rolled back.  The caller `main` does not use the vector after a failure, it exits with
code 1. -/
theorem failed_load_keeps_accepted_prefix (items : List Json) (qs qs1 : List Question)
    (h : load_questions (.parsed (.array items)) qs = some (false, qs1)) :
    (∃ pre bad post, items = pre ++ bad :: post ∧ wrong_type bad = true ∧
      load_questions (.parsed (.array pre)) qs = some (true, qs1) ∧
      qs1 = qs ++ pre.filterMap accepted) ∧
    (qs = [] → ∀ cin clock, main (.parsed (.array items)) cin clock = some ⟨1, none⟩) := by
  constructor
  · rw [load_questions_array] at h
    obtain ⟨pre, bad, post, h1, h2, h3⟩ := load_questions_loop_false items qs qs1 h
    exact ⟨pre, bad, post, h1, wrong_type_of_verdict bad h2,
      by rw [load_questions_array]; exact h3, load_questions_loop_true pre qs qs1 h3⟩
  · intro hqs cin clock
    subst hqs
    simp only [main, h]

/-- C2, amended, on the array `[A, mistyped, B]`, loaded into an empty vector. -/
theorem failed_load_keeps_accepted_prefix_witness :
    load_questions (.parsed (.array [record "A" ["x", "y"] 0, mistyped_record, record "B" ["u"] 0]))
        [] = some (false, [⟨"A", ["x", "y"], 0⟩]) ∧
    ((∃ pre bad post,
        [record "A" ["x", "y"] 0, mistyped_record, record "B" ["u"] 0] = pre ++ bad :: post ∧
        wrong_type bad = true ∧
        load_questions (.parsed (.array pre)) [] = some (true, [⟨"A", ["x", "y"], 0⟩]) ∧
        [⟨"A", ["x", "y"], 0⟩] = [] ++ pre.filterMap accepted) ∧
      (([] : List Question) = [] → ∀ cin clock,
        main (.parsed (.array [record "A" ["x", "y"] 0, mistyped_record, record "B" ["u"] 0]))
          cin clock = some ⟨1, none⟩)) :=
  ⟨by decide,
    failed_load_keeps_accepted_prefix
      [record "A" ["x", "y"] 0, mistyped_record, record "B" ["u"] 0] [] [⟨"A", ["x", "y"], 0⟩]
      (by decide)⟩

/-- C3, as stated, fails: the array `[mistyped, R]`, where `R` is the valid first record of
the specification's example, has one element that is present, correctly typed and in bounds,
yet `load_questions` loads no question (and reports failure). -/
theorem loaded_count_differs :
    List.countP valid_record [mistyped_record, record "2+2?" ["3", "4", "5"] 1] = 1 ∧
    load_questions (.parsed (.array [mistyped_record, record "2+2?" ["3", "4", "5"] 1])) [] =
      some (false, []) := by
  decide

/-- C3, amended: for every input array in which each element that has the three fields has
them correctly typed (a string, an array of strings, an integer) with the answer index and
the number of choices representable in `int`, `load_questions` succeeds and, starting from
an empty sequence, loads exactly as many questions as there are elements whose fields are
present, correctly typed and whose answer index satisfies `0 ≤ answer < len(choices)`. -/
theorem loaded_count_eq_valid_count (items : List Json)
    (h : ∀ item ∈ items, has_fields item = true → representable_record item = true) :
    ∃ qs, load_questions (.parsed (.array items)) [] = some (true, qs) ∧
      qs.length = items.countP valid_record := by
  obtain ⟨qs1, h1, h2⟩ := load_questions_loop_count items [] h
  exact ⟨qs1, by rw [load_questions_array]; exact h1, by simpa using h2⟩

/-- C3, amended, on the two-record example of the specification: the example
loads exactly one question. -/
theorem loaded_count_eq_valid_count_witness :
    (∀ item ∈ spec_example, has_fields item = true → representable_record item = true) ∧
    (∃ qs, load_questions (.parsed (.array spec_example)) [] = some (true, qs) ∧
      qs.length = spec_example.countP valid_record) ∧
    spec_example.countP valid_record = 1 :=
  ⟨by decide, loaded_count_eq_valid_count spec_example (by decide), by decide⟩

/-- C4, as stated, fails: two records with two choices each, whose answer indices in the
file are `4294967296` (not below `len(choices)`) and `-4294967295` (below zero), are not
dropped; `load_questions` succeeds and loads them with answer indices `0` and `1`. -/
theorem out_of_bounds_answer_loaded :
    typed_record (record "big" ["a", "b"] 4294967296) = some ⟨"big", ["a", "b"], 4294967296⟩ ∧
    typed_record (.object [("question", .string "neg"), ("choices", .array [.string "a",
      .string "b"]), ("answer", .number_integer (-4294967295))]) =
        some ⟨"neg", ["a", "b"], -4294967295⟩ ∧
    load_questions (.parsed (.array [record "big" ["a", "b"] 4294967296,
      .object [("question", .string "neg"), ("choices", .array [.string "a", .string "b"]),
        ("answer", .number_integer (-4294967295))]])) [] =
      some (true, [⟨"big", ["a", "b"], 0⟩, ⟨"neg", ["a", "b"], 1⟩]) := by
  decide

/-- C4, amended: whatever the input and whatever the result of the call, every question that
`load_questions` appends to the output satisfies `0 ≤ answer_index < len(choices)`, so its
choice list is non-empty and `choices[answer_index]` exists; and a record with correctly
typed fields whose answer index and number of choices are representable in `int` and whose
answer index is `< 0` or `≥ len(choices)` is dropped: it is not accepted and the scan goes on
with the output unchanged. -/
theorem loaded_questions_in_bounds (file : QuestionsFile) (qs qs1 : List Question) (b : Bool)
    (h : load_questions file qs = some (b, qs1)) :
    (∃ added, qs1 = qs ++ added ∧ ∀ q ∈ added,
      0 ≤ q.answer_index ∧ q.answer_index < q.choices.length ∧ q.choices ≠ [] ∧
        ∃ s, q.choices[q.answer_index.toNat]? = some s) ∧
    (∀ item q, typed_record item = some q → representable_record item = true →
      (q.answer_index < 0 ∨ (q.choices.length : Int) ≤ q.answer_index) →
      accepted item = none ∧
        ∀ rest out, load_questions_loop (item :: rest) out = load_questions_loop rest out) := by
  constructor
  · obtain ⟨added, h1, h2⟩ := load_questions_extends file qs qs1 b h
    refine ⟨added, h1, fun q hq => ?_⟩
    obtain ⟨item, hacc⟩ := h2 q hq
    obtain ⟨hlo, hhi⟩ := accepted_in_bounds item q hacc
    have hlen : q.answer_index.toNat < q.choices.length := by omega
    refine ⟨hlo, hhi, ?_, q.choices[q.answer_index.toNat], ?_⟩
    · intro hnil
      rw [hnil] at hlen
      simp at hlen
    · exact List.getElem?_eq_getElem hlen
  · intro item q ht hr hout
    unfold representable_record at hr
    rw [ht] at hr
    simp only [Bool.and_eq_true, decide_eq_true_eq] at hr
    have hv : verdict item = .skip := by
      rw [verdict_of_typed_record item q ht hr.1.1 hr.1.2 hr.2, if_neg]
      intro hb
      omega
    refine ⟨by simp [accepted, hv], fun rest out => ?_⟩
    rw [load_questions_loop_cons, hv]

/-- C4, amended, on the example of the specification, whose second record has answer index 5
for a single choice. -/
theorem loaded_questions_in_bounds_witness :
    load_questions (.parsed (.array spec_example)) [] =
      some (true, [⟨"2+2?", ["3", "4", "5"], 1⟩]) ∧
    ((∃ added, ([⟨"2+2?", ["3", "4", "5"], 1⟩] : List Question) = [] ++ added ∧ ∀ q ∈ added,
      0 ≤ q.answer_index ∧ q.answer_index < q.choices.length ∧ q.choices ≠ [] ∧
        ∃ s, q.choices[q.answer_index.toNat]? = some s) ∧
    (∀ item q, typed_record item = some q → representable_record item = true →
      (q.answer_index < 0 ∨ (q.choices.length : Int) ≤ q.answer_index) →
      accepted item = none ∧
        ∀ rest out, load_questions_loop (item :: rest) out = load_questions_loop rest out)) :=
  ⟨by decide,
    loaded_questions_in_bounds (.parsed (.array spec_example)) [] [⟨"2+2?", ["3", "4", "5"], 1⟩]
      true (by decide)⟩

/-- C5: when the parsed content of the file is not an array at the top level, whatever it
contains, `load_questions` returns failure and leaves the output as it was: no question is
loaded. -/
theorem non_array_is_rejected (j : Json) (qs : List Question) (h : j.is_array = false) :
    load_questions (.parsed j) qs = some (false, qs) := by
  simp [load_questions, h]

/-- C5 on an object that wraps the valid example array. -/
theorem non_array_is_rejected_witness :
    (Json.object [("questions", .array spec_example)]).is_array = false ∧
    load_questions (.parsed (.object [("questions", .array spec_example)])) [] =
      some (false, []) :=
  ⟨by decide, non_array_is_rejected (.object [("questions", .array spec_example)]) [] (by decide)⟩

/-- C6: an array element that lacks one of the fields `question`, `choices`, `answer`
(every element that is not an object lacks them all) is skipped without other effect:
with the element removed from the array, `load_questions` gives the same result flag and
the same sequence of loaded questions. -/
theorem record_missing_field_has_no_effect (pre post : List Json) (item : Json)
    (qs : List Question) (h : has_fields item = false) :
    load_questions (.parsed (.array (pre ++ item :: post))) qs =
      load_questions (.parsed (.array (pre ++ post))) qs := by
  rw [load_questions_array, load_questions_array, load_questions_loop_append,
    load_questions_loop_append]
  have hstep : ∀ out, load_questions_loop (item :: post) out = load_questions_loop post out := by
    intro out
    rw [load_questions_loop_cons, verdict_of_missing_field item h]
  cases hp : load_questions_loop pre qs with
  | none => rfl
  | some r =>
    obtain ⟨b, out⟩ := r
    cases b with
    | true => exact hstep out
    | false => rfl

/-- C6 on a string element placed between the two
records of the example. -/
theorem record_missing_field_has_no_effect_witness :
    has_fields (.string "not a record") = false ∧
    load_questions
        (.parsed (.array ([record "2+2?" ["3", "4", "5"] 1] ++
          .string "not a record" :: [record "Bad" ["a"] 5]))) [] =
      load_questions
        (.parsed (.array ([record "2+2?" ["3", "4", "5"] 1] ++ [record "Bad" ["a"] 5]))) [] :=
  ⟨by decide,
    record_missing_field_has_no_effect [record "2+2?" ["3", "4", "5"] 1] [record "Bad" ["a"] 5]
      (.string "not a record") [] (by decide)⟩

/-- C7, as stated, fails: the load of two records succeeds, yet the loaded questions do not
carry their record's answer index unchanged: the answer `4294967297` of the first is loaded
as `1`, and the boolean answer `true` of the second is loaded as `1`. -/
theorem loaded_answer_index_altered :
    typed_record (record "q" ["a", "b", "c"] 4294967297) =
      some ⟨"q", ["a", "b", "c"], 4294967297⟩ ∧
    load_questions (.parsed (.array [record "q" ["a", "b", "c"] 4294967297,
      .object [("question", .string "r"), ("choices", .array [.string "a", .string "b"]),
        ("answer", .boolean true)]])) [] =
      some (true, [⟨"q", ["a", "b", "c"], 1⟩, ⟨"r", ["a", "b"], 1⟩]) := by
  decide

/-- C7, amended: when `load_questions` succeeds on an array, the output is its content before
the call followed by the accepted elements of the array in file order, one question per
accepted element.  Each loaded question carries the text and the choices of its own record
unchanged: its text is the record's `question` string, its choices are the record's
`choices` strings in order; and it carries the record's answer index unchanged when that
answer is an integer representable in `int`.  A record typed as the specification
describes, with numbers that fit `int`, is accepted exactly when its answer index is within
bounds, and is then loaded as it stands in the file. -/
theorem loaded_sequence_is_accepted_in_order (items : List Json) (qs qs1 : List Question)
    (h : load_questions (.parsed (.array items)) qs = some (true, qs1)) :
    qs1 = qs ++ items.filterMap accepted ∧
    (∀ item q, accepted item = some q →
      ∃ members elements ja, item = .object members ∧
        members.lookup "question" = some (.string q.text) ∧
        members.lookup "choices" = some (.array elements) ∧
        as_strings elements = some q.choices ∧
        members.lookup "answer" = some ja ∧
        ∀ n, as_integer ja = some n → INT_MIN ≤ n → n ≤ INT_MAX → q.answer_index = n) ∧
    (∀ item q, typed_record item = some q → representable_record item = true →
      accepted item =
        if 0 ≤ q.answer_index ∧ q.answer_index < q.choices.length then some q else none) := by
  rw [load_questions_array] at h
  refine ⟨load_questions_loop_true items qs qs1 h, fun item q hacc => ?_, fun item q ht hr => ?_⟩
  · obtain ⟨members, elements, ja, h1, h2, h3, h4, h5, h6⟩ := fields_of_accepted item q hacc
    refine ⟨members, elements, ja, h1, h2, h3, h4, h5, fun n hn hlo hhi => ?_⟩
    rw [get_int_of_as_integer ja n q.answer_index hn h6, to_int_of_fits n hlo hhi]
  · unfold representable_record at hr
    rw [ht] at hr
    simp only [Bool.and_eq_true, decide_eq_true_eq] at hr
    rw [accepted, verdict_of_typed_record item q ht hr.1.1 hr.1.2 hr.2]
    by_cases hb : 0 ≤ q.answer_index ∧ q.answer_index < (q.choices.length : Int)
    · rw [if_pos hb, if_pos hb]
    · rw [if_neg hb, if_neg hb]

/-- C7, amended, on three records of which the middle
one is out of range. -/
theorem loaded_sequence_is_accepted_in_order_witness :
    load_questions
        (.parsed (.array [record "A" ["x", "y"] 1, record "Bad" ["a"] 5, record "B" ["u"] 0])) [] =
      some (true, [⟨"A", ["x", "y"], 1⟩, ⟨"B", ["u"], 0⟩]) ∧
    ([⟨"A", ["x", "y"], 1⟩, ⟨"B", ["u"], 0⟩] : List Question) =
      [] ++ [record "A" ["x", "y"] 1, record "Bad" ["a"] 5, record "B" ["u"] 0].filterMap accepted :=
  ⟨by decide,
    (loaded_sequence_is_accepted_in_order
      [record "A" ["x", "y"] 1, record "Bad" ["a"] 5, record "B" ["u"] 0] []
      [⟨"A", ["x", "y"], 1⟩, ⟨"B", ["u"], 0⟩] (by decide)).1⟩

/-! ## Claims on the session runner -/

/-- C8: for every non-empty question set and every session in which the answer accepted for
each question equals that question's correct index, the session loop of `main` runs to its
end with `score = total_attempts = number of questions`; and when that question set is what
`load_questions` loaded, `main` exits with code 0 and prints these figures. -/
theorem all_correct_session_has_full_score (clock : Nat → ℚ) (questions : List Question)
    (cin : List Char) (hne : questions ≠ [])
    (hans : accepted_answers questions cin = some (questions.map (fun q => q.answer_index))) :
    (∃ s cin1, session_loop clock questions 0 cin ⟨0, 0, []⟩ = some (s, cin1) ∧
      s.score = questions.length ∧ s.total_attempts = questions.length) ∧
    (∀ file, load_questions file [] = some (true, questions) →
      ∃ summary, main file cin clock = some ⟨0, some summary⟩ ∧
        summary.score = questions.length ∧ summary.attempts = questions.length ∧
        summary.total_questions = questions.length) := by
  obtain ⟨s, cin1, h1, h2, h3⟩ := session_loop_all_correct clock questions 0 cin ⟨0, 0, []⟩ hans
  simp only [zero_add] at h2 h3
  refine ⟨⟨s, cin1, h1, h2, h3⟩, fun file hload => ?_⟩
  have hemp : questions.isEmpty = false := by
    cases questions with
    | nil => exact absurd rfl hne
    | cons q rest => rfl
  simp only [main, hload, hemp, Bool.false_eq_true, if_false, h1]
  exact ⟨_, rfl, h2, h3, rfl⟩

/-- C8 on the example of the specification,
with the answer "2" typed for the single loaded question, gives score 1 and 1 attempt. -/
theorem all_correct_session_has_full_score_witness :
    (([⟨"2+2?", ["3", "4", "5"], 1⟩] : List Question) ≠ [] ∧
      accepted_answers [⟨"2+2?", ["3", "4", "5"], 1⟩] ['2', '\n'] =
        some (([⟨"2+2?", ["3", "4", "5"], 1⟩] : List Question).map (fun q => q.answer_index)) ∧
      load_questions (.parsed (.array spec_example)) [] =
        some (true, [⟨"2+2?", ["3", "4", "5"], 1⟩])) ∧
    ((∃ s cin1, session_loop (fun _ => 0) [⟨"2+2?", ["3", "4", "5"], 1⟩] 0 ['2', '\n']
          ⟨0, 0, []⟩ = some (s, cin1) ∧
        s.score = ([⟨"2+2?", ["3", "4", "5"], 1⟩] : List Question).length ∧
        s.total_attempts = ([⟨"2+2?", ["3", "4", "5"], 1⟩] : List Question).length) ∧
      (∀ file, load_questions file [] = some (true, [⟨"2+2?", ["3", "4", "5"], 1⟩]) →
        ∃ summary, main file ['2', '\n'] (fun _ => 0) = some ⟨0, some summary⟩ ∧
          summary.score = ([⟨"2+2?", ["3", "4", "5"], 1⟩] : List Question).length ∧
          summary.attempts = ([⟨"2+2?", ["3", "4", "5"], 1⟩] : List Question).length ∧
          summary.total_questions = ([⟨"2+2?", ["3", "4", "5"], 1⟩] : List Question).length)) :=
  ⟨⟨by decide, by decide, by decide⟩,
    all_correct_session_has_full_score (fun _ => 0) [⟨"2+2?", ["3", "4", "5"], 1⟩] ['2', '\n']
      (by decide) (by decide)⟩

end Quiz
